import Mathlib

/-!
Shallow embedding of the mnemosyne date-partitioned dataset engine
(ReturnsEngine, grid aggregation, ByDateDataview/ByDateDataset lifecycle,
MetadataEngine construction), translated from the repository sources:

* `mnemosyne/engines/returns.py` and `mnemosyne/engines/returns copy 2.py`
* `mnemosyne/binance/last_trade.py`
* `mnemosyne/dataset/interface.py` and `atlas/multiprocessing.py`
* `mnemosyne/engines/metadata.py`

Timestamps are microsecond integers, dates are day indices (`Int`), prices
are rationals.  A polars `null`/`NaN` "absent value" is rendered as
`Option.none`; engine-added columns are `Option`-valued.
-/

/-- Microsecond-precision timestamps (polars `Timestamp(µs)`). -/
abbrev Micros := Int

/-- Dates as day indices (polars `Date`). -/
abbrev DateT := Int

def microsPerDay : Int := 86400000000

/-- `expr.dt.date()` on a microsecond timestamp: floor-divide to the day. -/
def dateOf (t : Micros) : DateT := t.fdiv microsPerDay

namespace ReturnsEngine

/-- One row of the backend database after
`self.db = db.select('date', 'symbol', backend_time_expr.alias('tick_time'),
backend_fair_expr.alias('fair'))` (`returns.py` lines 19-23).  `date` is the
hive partition date column, independent of `tick_time`. -/
structure Tick where
  date : DateT
  symbol : String
  tick_time : Micros
  fair : Rat
deriving Repr, DecidableEq

/-- One row of the user query frame: a `symbol` column, the column selected
by `start_time_expr`, and arbitrary further user columns (`user`). -/
structure QueryRow (α : Type) where
  symbol : String
  start_time : Micros
  user : α
deriving Repr, DecidableEq

/-- The `query_type` enum `pl.Enum(['start', 'end'])` (`returns.py` line 94). -/
inductive QueryType where
  | qstart
  | qend
deriving Repr, DecidableEq

/-- One row of `long_query` (`returns.py` lines 95-106). -/
structure Event where
  row_id : Nat
  symbol : String
  query_time : Micros
  query_type : QueryType
deriving Repr, DecidableEq

/-- `query_lf.with_row_index('row_id')`, starting at index `i`. -/
def withRowIndexFrom (i : Nat) : List (QueryRow α) → List (Nat × QueryRow α)
  | [] => []
  | q :: qs => (i, q) :: withRowIndexFrom (i + 1) qs

/-- `query_lf.with_row_index('row_id')` (`returns.py` line 53). -/
def withRowIndex (l : List (QueryRow α)) : List (Nat × QueryRow α) :=
  withRowIndexFrom 0 l

/-- Backward asof join of a single left key against the backend
(`join_asof(..., strategy='backward', by='symbol')`, `returns.py` lines
111-116): the most recent tick of the same symbol with
`tick_time ≤ query_time`.  polars sorts the right frame by
`(symbol, tick_time)` and takes the last matching row; the fold below keeps
the later element on ties, which is exactly that row. -/
def asofStep (acc : Option Tick) (t : Tick) : Option Tick :=
  match acc with
  | none => some t
  | some b => if b.tick_time ≤ t.tick_time then some t else some b

def asofBackward (db : List Tick) (sym : String) (qt : Micros) : Option Tick :=
  (db.filter (fun t => t.symbol == sym && decide (t.tick_time ≤ qt))).foldl
    asofStep none

/-- One row of `joined_lf` (`returns.py` lines 111-122). -/
structure JoinedRow where
  row_id : Nat
  symbol : String
  query_time : Micros
  query_type : QueryType
  tick_to_query_lag : Option Micros
  fair : Option Rat
  tick_time : Option Micros
deriving Repr, DecidableEq

/-- The asof join plus the staleness policy for one query event
(`returns.py` lines 111-122):
`tick_to_query_lag = query_time - tick_time` and
`fair = when(tick_time.dt.offset_by(tick_lag_tolerance) >= query_time)
.then(fair).otherwise(None)`.  An unmatched event has both columns null. -/
def joinEvent (db : List Tick) (tol : Micros) (e : Event) : JoinedRow :=
  match asofBackward db e.symbol e.query_time with
  | none =>
      { row_id := e.row_id, symbol := e.symbol, query_time := e.query_time,
        query_type := e.query_type, tick_to_query_lag := none, fair := none,
        tick_time := none }
  | some t =>
      { row_id := e.row_id, symbol := e.symbol, query_time := e.query_time,
        query_type := e.query_type,
        tick_to_query_lag := some (e.query_time - t.tick_time),
        fair := if t.tick_time + tol ≥ e.query_time then some t.fair else none,
        tick_time := some t.tick_time }

/-- `(fair_end.first() - fair_start.first()) / fair_start.first()`
(`returns.py` lines 134-138) with float-null propagation: a null on either
side gives null; a zero `fair_start` gives a non-finite float, rendered as
absence in line with the engine's NaN policy. -/
def rowReturn (fair_start fair_end : Option Rat) : Option Rat :=
  match fair_start, fair_end with
  | some fs, some fe => if fs = 0 then none else some ((fe - fs) / fs)
  | _, _ => none

/-- polars `max` over a group, ignoring nulls (all-null gives null). -/
def optMax (a b : Option Int) : Option Int :=
  match a, b with
  | none, y => y
  | some x, none => some x
  | some x, some y => some (max x y)

/-- One row of `query_with_both` (`returns.py` lines 60-72). -/
structure QueryBoth where
  symbol : String
  row_id : Nat
  start_time : Micros
  end_time : Micros
deriving Repr, DecidableEq

/-- `returns.py` lines 60-72: keep `symbol`, `row_id`, `start_time`, filter
to symbols of the backend enum, and compute
`end_time = start_time.dt.offset_by(mark_duration)`.  The enum re-cast keeps
the symbol string unchanged; the `(symbol, start_time)` sort only serves the
later streaming asof join and does not change any per-row value. -/
def queryWithBoth (dbSyms : List String) (dur : Micros)
    (qidx : List (Nat × QueryRow α)) : List QueryBoth :=
  (qidx.filter (fun p => dbSyms.contains p.2.symbol)).map
    (fun p =>
      { symbol := p.2.symbol, row_id := p.1,
        start_time := p.2.start_time, end_time := p.2.start_time + dur })

/-- `start_time.dt.date().min()` over `query_with_both` (`returns.py` line 78). -/
def minStartDate (qwb : List QueryBoth) : Option DateT :=
  (qwb.map (fun q => dateOf q.start_time)).min?

/-- `end_time.dt.date().max()` over `query_with_both` (`returns.py` line 79). -/
def maxEndDate (qwb : List QueryBoth) : Option DateT :=
  (qwb.map (fun q => dateOf q.end_time)).max?

/-- `self.db.filter(date.is_between(min_date, max_date)).drop('date')`
(`returns.py` lines 82-89).  When the query is empty both bounds are null
and `is_between(null, null)` is null, dropping every row. -/
def inrangeDb (db : List Tick) (qwb : List QueryBoth) : List Tick :=
  match minStartDate qwb, maxEndDate qwb with
  | some lo, some hi =>
      db.filter (fun t => decide (lo ≤ t.date) && decide (t.date ≤ hi))
  | _, _ => []

/-- `long_query` (`returns.py` lines 95-106): each query row expands into a
`start` event and an `end` event.  The `(symbol, query_time)` sort serves
the streaming asof join only and changes no per-row value. -/
def longQuery (qwb : List QueryBoth) : List Event :=
  qwb.map (fun q =>
    { row_id := q.row_id, symbol := q.symbol, query_time := q.start_time,
      query_type := QueryType.qstart })
  ++ qwb.map (fun q =>
    { row_id := q.row_id, symbol := q.symbol, query_time := q.end_time,
      query_type := QueryType.qend })

/-- The columns appended by `query` (`returns.py` lines 126-141). -/
structure AppendCols where
  max_tick_to_query_lag : Option Micros
  ret : Option Rat
deriving Repr, DecidableEq

/-- The aggregation body of `group_by(['row_id', 'symbol']).agg(...)`
(`returns.py` lines 127-139) for one group: the max lag over the group's
events and the return from the group's first `start` and first `end` fairs. -/
def aggGroup (joined : List JoinedRow) (rid : Nat) (sym : String) : AppendCols :=
  let grp := joined.filter (fun r => r.row_id == rid && r.symbol == sym)
  let fairOf : QueryType → Option Rat := fun qt =>
    match grp.find? (fun r => r.query_type == qt) with
    | some r => r.fair
    | none => none
  { max_tick_to_query_lag :=
      grp.foldl (fun acc r => optMax acc r.tick_to_query_lag) none,
    ret := rowReturn (fairOf QueryType.qstart) (fairOf QueryType.qend) }

/-- `append_cols` (`returns.py` lines 126-141): one output row per distinct
`(row_id, symbol)` group of `joined_lf`, then `symbol` is dropped. -/
def appendColsOf (joined : List JoinedRow) : List (Nat × AppendCols) :=
  ((joined.map (fun r => (r.row_id, r.symbol))).dedup).map
    (fun k => (k.1, aggGroup joined k.1 k.2))

/-- `query_lf_withidx.join(append_cols, on='row_id', how='left')`
(`returns.py` lines 144-147): every left row is kept; an unmatched row
carries null appended columns, a matched row one output per match. -/
def leftJoinAppend (qidx : List (Nat × QueryRow α))
    (ac : List (Nat × AppendCols)) : List (QueryRow α × Option AppendCols) :=
  qidx.flatMap (fun p =>
    match ac.filter (fun r => r.1 == p.1) with
    | [] => [(p.2, none)]
    | ms => ms.map (fun r => (p.2, some r.2)))

/-- The `append_cols` frame of `ReturnsEngine.query` (`returns.py` lines
126-141), produced from the filtered query, the date-restricted backend,
the long query and the asof join. -/
def queryAppendCols (db : List Tick) (dbSyms : List String)
    (query_lf : List (QueryRow α)) (dur tol : Micros) :
    List (Nat × AppendCols) :=
  let qwb := queryWithBoth dbSyms dur (withRowIndex query_lf)
  appendColsOf ((longQuery qwb).map (joinEvent (inrangeDb db qwb) tol))

/-- `ReturnsEngine.query` (`returns.py` lines 29-150), with the backend
already reduced to its tick rows and `dbSyms` the backend symbol-enum
categories.  `dur` is `mark_duration`, `tol` is `tick_lag_tolerance`. -/
def query (db : List Tick) (dbSyms : List String) (query_lf : List (QueryRow α))
    (dur tol : Micros) : List (QueryRow α × Option AppendCols) :=
  leftJoinAppend (withRowIndex query_lf)
    (queryAppendCols db dbSyms query_lf dur tol)

/-! ### `returns copy 2.py`: the flagged `query` and `query_batch`

The boolean flags `append_query_tick_times`, `append_lag`,
`append_start_end_fairs` only select which of the aggregate columns are
emitted; the embedding carries all of them, so statements about "any
returned value" quantify over every optional column at once. -/

/-- All columns `query` (`returns copy 2.py` lines 143-158) can append. -/
structure AppendColsV2 where
  start_query_time : Option Micros
  end_query_time : Option Micros
  start_tick_time : Option Micros
  end_tick_time : Option Micros
  max_tick_to_query_lag : Option Micros
  start_fair : Option Rat
  end_fair : Option Rat
  ret : Option Rat
deriving Repr, DecidableEq

/-- The aggregation body of `returns copy 2.py` lines 143-163 for one
`(row_id, symbol)` group. -/
def aggGroupV2 (joined : List JoinedRow) (rid : Nat) (sym : String) :
    AppendColsV2 :=
  let grp := joined.filter (fun r => r.row_id == rid && r.symbol == sym)
  let rowOf : QueryType → Option JoinedRow := fun qt =>
    grp.find? (fun r => r.query_type == qt)
  { start_query_time := (rowOf QueryType.qstart).map (fun r => r.query_time),
    end_query_time := (rowOf QueryType.qend).map (fun r => r.query_time),
    start_tick_time := (rowOf QueryType.qstart).bind (fun r => r.tick_time),
    end_tick_time := (rowOf QueryType.qend).bind (fun r => r.tick_time),
    max_tick_to_query_lag :=
      grp.foldl (fun acc r => optMax acc r.tick_to_query_lag) none,
    start_fair := (rowOf QueryType.qstart).bind (fun r => r.fair),
    end_fair := (rowOf QueryType.qend).bind (fun r => r.fair),
    ret := rowReturn ((rowOf QueryType.qstart).bind (fun r => r.fair))
      ((rowOf QueryType.qend).bind (fun r => r.fair)) }

/-- `append_cols` of `returns copy 2.py` lines 160-165. -/
def appendColsV2Of (joined : List JoinedRow) : List (Nat × AppendColsV2) :=
  ((joined.map (fun r => (r.row_id, r.symbol))).dedup).map
    (fun k => (k.1, aggGroupV2 joined k.1 k.2))

/-- The final left join of `returns copy 2.py` lines 168-171; unlike
`returns.py` the `row_id` column is kept (`.drop('row_id')` is commented
out). -/
def leftJoinAppendV2 (qidx : List (Nat × QueryRow α))
    (ac : List (Nat × AppendColsV2)) :
    List ((Nat × QueryRow α) × Option AppendColsV2) :=
  qidx.flatMap (fun p =>
    match ac.filter (fun r => r.1 == p.1) with
    | [] => [(p, none)]
    | ms => ms.map (fun r => (p, some r.2)))

/-- The date bounds of `returns copy 2.py` lines 85-88, computed on the raw
`query_lf` (before the symbol filter) from `start_time_expr` and
`mark_duration`. -/
def queryDateBounds (query_lf : List (QueryRow α)) (dur : Micros) :
    Option DateT × Option DateT :=
  ((query_lf.map (fun q => dateOf q.start_time)).min?,
   (query_lf.map (fun q => dateOf (q.start_time + dur))).max?)

/-- The `filter_by_query_dates` branch of `returns copy 2.py` lines 82-93:
when set, the backend is narrowed to `date.is_between(min_date, max_date)`
(a null bound, arising from an empty query, drops every row); otherwise the
whole backend is scanned. -/
def pushdownDb (filter_by_query_dates : Bool) (db : List Tick)
    (query_lf : List (QueryRow α)) (dur : Micros) : List Tick :=
  if filter_by_query_dates then
    match queryDateBounds query_lf dur with
    | (some lo, some hi) =>
        db.filter (fun t => decide (lo ≤ t.date) && decide (t.date ≤ hi))
    | _ => []
  else db

/-- `ReturnsEngine.query` of `returns copy 2.py` lines 31-173, with the
`filter_by_query_dates` flag explicit. -/
def queryV2 (filter_by_query_dates : Bool) (db : List Tick)
    (dbSyms : List String) (query_lf : List (QueryRow α)) (dur tol : Micros) :
    List ((Nat × QueryRow α) × Option AppendColsV2) :=
  let qwb := queryWithBoth dbSyms dur (withRowIndex query_lf)
  let joined := (longQuery qwb).map
    (joinEvent (pushdownDb filter_by_query_dates db query_lf dur) tol)
  leftJoinAppendV2 (withRowIndex query_lf) (appendColsV2Of joined)

/-- One entry of `mark_exprs` (`returns copy 2.py` line 177): a return
name mapped to a start-time expression (a function of the row's time
column) and a duration. -/
structure MarkSpec where
  name : String
  startFn : Micros → Micros
  dur : Micros

/-- One row of the batched `long_query` (`returns copy 2.py` lines
286-300), tagged with `return_col_name`. -/
structure EventB where
  row_id : Nat
  symbol : String
  return_col_name : String
  query_time : Micros
  query_type : QueryType
deriving Repr, DecidableEq

/-- One row of the batched `joined_lf` (`returns copy 2.py` lines 303-315). -/
structure JoinedRowB where
  row_id : Nat
  symbol : String
  return_col_name : String
  query_time : Micros
  query_type : QueryType
  tick_to_query_lag : Option Micros
  fair : Option Rat
  tick_time : Option Micros
deriving Repr, DecidableEq

/-- The per-spec frames of `returns copy 2.py` lines 229-248, concatenated:
each mark spec contributes one row per backend-compatible query row. -/
structure QueryBothB where
  symbol : String
  row_id : Nat
  start_time : Micros
  end_time : Micros
  return_col_name : String

def queryWithBothBatch (dbSyms : List String) (marks : List MarkSpec)
    (qidx : List (Nat × QueryRow α)) : List QueryBothB :=
  marks.flatMap (fun mk =>
    (qidx.filter (fun p => dbSyms.contains p.2.symbol)).map
      (fun p =>
        { symbol := p.2.symbol, row_id := p.1,
          start_time := mk.startFn p.2.start_time,
          end_time := mk.startFn p.2.start_time + mk.dur,
          return_col_name := mk.name }))

/-- `long_query` of `returns copy 2.py` lines 286-300. -/
def longQueryBatch (qwb : List QueryBothB) : List EventB :=
  qwb.map (fun q =>
    { row_id := q.row_id, symbol := q.symbol,
      return_col_name := q.return_col_name, query_time := q.start_time,
      query_type := QueryType.qstart })
  ++ qwb.map (fun q =>
    { row_id := q.row_id, symbol := q.symbol,
      return_col_name := q.return_col_name, query_time := q.end_time,
      query_type := QueryType.qend })

/-- The asof join plus staleness policy of `returns copy 2.py` lines
303-315 for one batched event. -/
def joinEventB (db : List Tick) (tol : Micros) (e : EventB) : JoinedRowB :=
  match asofBackward db e.symbol e.query_time with
  | none =>
      { row_id := e.row_id, symbol := e.symbol,
        return_col_name := e.return_col_name, query_time := e.query_time,
        query_type := e.query_type, tick_to_query_lag := none, fair := none,
        tick_time := none }
  | some t =>
      { row_id := e.row_id, symbol := e.symbol,
        return_col_name := e.return_col_name, query_time := e.query_time,
        query_type := e.query_type,
        tick_to_query_lag := some (e.query_time - t.tick_time),
        fair := if t.tick_time + tol ≥ e.query_time then some t.fair else none,
        tick_time := some t.tick_time }

/-- The aggregation of `returns copy 2.py` lines 319-341, grouped by
`(row_id, symbol, return_col_name)`; `symbol` is dropped afterwards. -/
def aggGroupB (joined : List JoinedRowB) (rid : Nat) (sym rname : String) :
    AppendColsV2 :=
  let grp := joined.filter (fun r =>
    r.row_id == rid && r.symbol == sym && r.return_col_name == rname)
  let rowOf : QueryType → Option JoinedRowB := fun qt =>
    grp.find? (fun r => r.query_type == qt)
  { start_query_time := (rowOf QueryType.qstart).map (fun r => r.query_time),
    end_query_time := (rowOf QueryType.qend).map (fun r => r.query_time),
    start_tick_time := (rowOf QueryType.qstart).bind (fun r => r.tick_time),
    end_tick_time := (rowOf QueryType.qend).bind (fun r => r.tick_time),
    max_tick_to_query_lag :=
      grp.foldl (fun acc r => optMax acc r.tick_to_query_lag) none,
    start_fair := (rowOf QueryType.qstart).bind (fun r => r.fair),
    end_fair := (rowOf QueryType.qend).bind (fun r => r.fair),
    ret := rowReturn ((rowOf QueryType.qstart).bind (fun r => r.fair))
      ((rowOf QueryType.qend).bind (fun r => r.fair)) }

def appendColsBatchOf (joined : List JoinedRowB) :
    List ((Nat × String) × AppendColsV2) :=
  ((joined.map (fun r => (r.row_id, r.symbol, r.return_col_name))).dedup).map
    (fun k => ((k.1, k.2.2), aggGroupB joined k.1 k.2.1 k.2.2))

/-- The long-format `append_cols` of `query_batch` at the point of
`returns copy 2.py` line 352. -/
def batchAppendCols (db : List Tick) (dbSyms : List String)
    (query_lf : List (QueryRow α)) (marks : List MarkSpec)
    (tol : Micros) (filter_by_query_dates : Bool) :
    List ((Nat × String) × AppendColsV2) :=
  let qidx := withRowIndex query_lf
  let qwb := queryWithBothBatch dbSyms marks qidx
  let idb :=
    if filter_by_query_dates then
      -- lines 251-268: per-spec date bounds, then the overall min and max
      let bounds := marks.map (fun mk =>
        ((query_lf.map (fun q => dateOf (mk.startFn q.start_time))).min?,
         (query_lf.map (fun q => dateOf (mk.startFn q.start_time + mk.dur))).max?))
      match (bounds.filterMap Prod.fst).min?,
            (bounds.filterMap Prod.snd).max? with
      | some lo, some hi =>
          db.filter (fun t => decide (lo ≤ t.date) && decide (t.date ≤ hi))
      | _, _ => []
    else db
  let joined := (longQueryBatch qwb).map (joinEventB idb tol)
  appendColsBatchOf joined

/-- Whether a backend tick date lies inside the (optional) query date
bounds; with both bounds present this is the `is_between` test of the
pushdown filter. -/
def boundsContain (b : Option DateT × Option DateT) (d : DateT) : Bool :=
  match b with
  | (some lo, some hi) => decide (lo ≤ d) && decide (d ≤ hi)
  | _ => true

/-- What a `query_batch` call can return.  The documented result is the
wide frame (docstring, `returns copy 2.py` lines 200-205, and the dead code
at lines 354-379); the `return` statement at line 352 instead produces the
3-tuple `(mark_exprs, append_cols, query_lf_withidx)`. -/
inductive BatchOutput (α : Type) where
  | debugTuple (marks : List MarkSpec)
      (append_cols : List ((Nat × String) × AppendColsV2))
      (query_lf_withidx : List (Nat × QueryRow α))
  | wideFrame (rows : List ((Nat × QueryRow α) × List (String × AppendColsV2)))

def BatchOutput.isWideFrame : BatchOutput α → Bool
  | BatchOutput.debugTuple _ _ _ => false
  | BatchOutput.wideFrame _ => true

/-- `ReturnsEngine.query_batch` (`returns copy 2.py` lines 175-379).
Raises `ValueError` on empty `mark_exprs` (line 213); otherwise runs the
pipeline through `append_cols` and hits the early `return` at line 352,
never reaching the wide pivot or the final join. -/
def queryBatch (db : List Tick) (dbSyms : List String)
    (query_lf : List (QueryRow α)) (marks : List MarkSpec) (tol : Micros)
    (filter_by_query_dates : Bool) : Except String (BatchOutput α) :=
  if marks.isEmpty then
    Except.error "mark_exprs must contain at least one mark specification"
  else
    Except.ok (BatchOutput.debugTuple marks
      (batchAppendCols db dbSyms query_lf marks tol filter_by_query_dates)
      (withRowIndex query_lf))

end ReturnsEngine

namespace Grid

/-! ### `mnemosyne/binance/last_trade.py`: grid aggregation -/

/-- One raw tick row consumed by `grid_query` (after the renames of
`_compute_partitions`, `last_trade.py` lines 128-131). -/
structure TradeTick where
  symbol : String
  date : DateT
  time : Micros
  price : Rat
  quantity : Rat
  is_buyer_maker : Bool
  peg_symbol : String
deriving Repr, DecidableEq

/-- `expr.dt.truncate(every)`: backward rounding to the grid. -/
def truncate (t : Micros) (every : Micros) : Micros := every * (t.fdiv every)

/-- The grouping key expression of `grid_query` (`last_trade.py` line 65):
`time.dt.truncate(every=grid_interval) + grid_interval`. -/
def bucketEnd (t : Micros) (every : Micros) : Micros := truncate t every + every

/-- The `group_by('symbol', 'date', time_grid)` key. -/
structure GridKey where
  symbol : String
  date : DateT
  time_grid : Micros
deriving Repr, DecidableEq

def keyOf (every : Micros) (t : TradeTick) : GridKey :=
  { symbol := t.symbol, date := t.date, time_grid := bucketEnd t.time every }

/-- `quantity * is_taker_buy` where `is_taker_buy = ~is_buyer_maker` casts
to 0/1 (`last_trade.py` lines 20-22, 38). -/
def takerBuyQty (t : TradeTick) : Rat :=
  if t.is_buyer_maker then 0 else t.quantity

/-- `quantity * is_taker_sell` where `is_taker_sell = is_buyer_maker`. -/
def takerSellQty (t : TradeTick) : Rat :=
  if t.is_buyer_maker then t.quantity else 0

/-- `weighted_mean(price, volume, name) = price.dot(volume) / volume.sum()`
(`last_trade.py` lines 13-15); a zero weight sum divides by zero, giving a
non-finite float rendered as absence. -/
def weightedMean (pw : List (Rat × Rat)) : Option Rat :=
  let den := (pw.map (fun p => p.2)).sum
  if den = 0 then none
  else some ((pw.map (fun p => p.1 * p.2)).sum / den)

/-- One output row of `grid_query` (`time_grid` renamed to `time`,
`last_trade.py` lines 69-71).  The field `open_` renders the `open` column
(a Lean keyword). -/
structure GridRow where
  symbol : String
  date : DateT
  time : Micros
  peg_symbol : String
  open_ : Rat
  high : Rat
  low : Rat
  close : Rat
  volume : Rat
  trade_count : Nat
  last_event_time : Micros
  taker_buy_volume : Rat
  taker_sell_volume : Rat
  vwap_taker_buy : Option Rat
  vwap_taker_sell : Option Rat
  vwap_price : Option Rat
deriving Repr, DecidableEq

/-- The aggregations of `grid_columns` (`last_trade.py` lines 17-56) over
one group, in row order.  Groups produced by `group_by` are nonempty, so
the defaults supplied to `first`/`last`/`max`/`min` are never read. -/
def gridAgg (grp : List TradeTick) (k : GridKey) : GridRow :=
  { symbol := k.symbol, date := k.date, time := k.time_grid,
    peg_symbol := (grp.getLast?).elim "" (fun t => t.peg_symbol),
    open_ := (grp.head?).elim 0 (fun t => t.price),
    high := ((grp.map (fun t => t.price)).max?).getD 0,
    low := ((grp.map (fun t => t.price)).min?).getD 0,
    close := (grp.getLast?).elim 0 (fun t => t.price),
    volume := (grp.map (fun t => t.quantity)).sum,
    trade_count := grp.length,
    last_event_time := (grp.getLast?).elim 0 (fun t => t.time),
    taker_buy_volume := (grp.map takerBuyQty).sum,
    taker_sell_volume := (grp.map takerSellQty).sum,
    vwap_taker_buy := weightedMean (grp.map (fun t => (t.price, takerBuyQty t))),
    vwap_taker_sell := weightedMean (grp.map (fun t => (t.price, takerSellQty t))),
    vwap_price := weightedMean (grp.map (fun t => (t.price, t.quantity))) }

/-- `grid_query` (`last_trade.py` lines 58-72): group by
`(symbol, date, truncate(time, Δ) + Δ)` and aggregate.  `group_by` does not
guarantee an output order; the embedding lists one row per distinct key. -/
def gridQuery (lf : List TradeTick) (every : Micros) : List GridRow :=
  ((lf.map (keyOf every)).dedup).map
    (fun k => gridAgg (lf.filter (fun t => decide (keyOf every t = k))) k)

/-- The four Scenario-1 ticks: symbol `A`, date `2024-01-01` (day 0 here),
times 09:00:01, 09:05:30, 09:09:59 and 09:10:00 as microseconds since
midnight. -/
def scenario1 : List TradeTick :=
  [ { symbol := "A", date := 0, time := 32401000000, price := 100,
      quantity := 1, is_buyer_maker := false, peg_symbol := "USDT" },
    { symbol := "A", date := 0, time := 32730000000, price := 101,
      quantity := 2, is_buyer_maker := true, peg_symbol := "USDT" },
    { symbol := "A", date := 0, time := 32999000000, price := 99,
      quantity := 3, is_buyer_maker := false, peg_symbol := "USDT" },
    { symbol := "A", date := 0, time := 33000000000, price := 102,
      quantity := 1, is_buyer_maker := true, peg_symbol := "USDT" } ]

/-- `Δ = 10m` in microseconds. -/
def tenMin : Micros := 600000000

end Grid

namespace Dataset

/-! ### `mnemosyne/dataset/interface.py` and `atlas/multiprocessing.py`:
partition lifecycle -/

/-- `chunk_list(lst, chunk_size, assert_div=False)`
(`atlas/multiprocessing.py` lines 16-24): consecutive slices of length
`chunk_size` (the final slice may be shorter).  Python raises on a zero
chunk size; the embedding returns no chunks there and every statement about
`compute` assumes a positive `days_per_batch`. -/
def chunkListAux (n : Nat) : Nat → List α → List (List α)
  | _, [] => []
  | 0, _ :: _ => []
  | fuel + 1, l => l.take n :: chunkListAux n fuel (l.drop n)

def chunkList (l : List α) (n : Nat) : List (List α) :=
  if n = 0 then [] else chunkListAux n l.length l

/-- Python `sorted` on dates. -/
def sortDates (l : List Int) : List Int := l.insertionSort (fun a b => a ≤ b)

/-- The flattening of per-chunk worker results into a per-date mapping
(`interface.py` lines 363-372): every date of a chunk receives that chunk's
success boolean.  `wf` is the worker outcome per chunk
(`_compute_partitions_worker` returning `True`, or the `on_compute_error`
hook substituting `False` for every date of a failed batch). -/
def computeResults (chunks : List (List Int)) (wf : List Int → Bool) :
    List (Int × Bool) :=
  chunks.flatMap (fun c => c.map (fun d => (d, wf c)))

/-- The observable outcome of one `ByDateDataset.compute` call
(`interface.py` lines 377-394): the new in-memory `_valid_partitions` set,
whether any worker batch was scheduled, whether the validation cache file
was persisted, and the sorted failed-date list of the raised
`RuntimeError` (`none` when the call returns normally). -/
structure ComputeOutcome where
  valid : Finset Int
  scheduled : Bool
  saved : Bool
  failedDates : Option (List Int)
deriving DecidableEq

/-- `to_compute` (`interface.py` lines 383-386): all partitions under
`recompute`, otherwise the ones missing from the validation cache. -/
def toComputeOf (partitions : List Int) (valid : Finset Int)
    (recompute : Bool) : List Int :=
  if recompute then partitions
  else partitions.filter (fun d => !(decide (d ∈ valid)))

/-- `ByDateDataset.compute(recompute, days_per_batch)` (`interface.py`
lines 377-394) over the session state `(partitions, valid)`:

1. `to_compute` is all partitions, or the ones not yet valid; an empty
   `to_compute` with `recompute=False` returns at once.
2. `_compute_partitions_batch` chunks `sorted(to_compute)` into
   `days_per_batch`-sized batches and records each chunk's success for each
   of its dates (it schedules no worker on an empty input, lines 349-350).
3. `update_validations(successful, failed, memory=True, file=True)` adds
   the successes, removes the failures, and persists the cache.
4. If any date failed, `RuntimeError` lists `sorted(failed)`. -/
def compute (partitions : List Int) (valid : Finset Int) (recompute : Bool)
    (days_per_batch : Nat) (wf : List Int → Bool) : ComputeOutcome :=
  let to_compute := toComputeOf partitions valid recompute
  if !recompute && to_compute.isEmpty then
    { valid := valid, scheduled := false, saved := false, failedDates := none }
  else
    let results :=
      if to_compute.isEmpty then []
      else computeResults (chunkList (sortDates to_compute) days_per_batch) wf
    let successful := (results.filter (fun r => r.2)).map (fun r => r.1)
    let failed := (results.filter (fun r => !r.2)).map (fun r => r.1)
    { valid := (valid ∪ successful.toFinset) \ failed.toFinset,
      scheduled := !to_compute.isEmpty,
      saved := true,
      failedDates :=
        if failed.isEmpty then none else some (sortDates failed) }

/-! ### `ByDateDataview` lazy-frame post-processing (`interface.py`) -/

/-- A column dtype: plain strings, or the frozen universe enum. -/
inductive Dtype where
  | str
  | enum (cats : List String)
deriving Repr, DecidableEq

/-- One column of a (lazy) frame; values are carried as strings, since only
the `symbol` column's dtype matters here. -/
structure Column where
  name : String
  dtype : Dtype
  values : List String
deriving Repr, DecidableEq

structure Frame where
  cols : List Column
deriving Repr, DecidableEq

/-- `_postprocess_lf` (`interface.py` lines 164-173): if a `symbol` column
is present, cast it to the universe enum (`pl.col('symbol').cast(enum)`); a
cast of the enum to itself is the identity, and casting a string column
keeps its values. -/
def postprocessLf (symbolEnum : List String) (lf : Frame) : Frame :=
  if lf.cols.any (fun c => c.name == "symbol") then
    { cols := lf.cols.map (fun c =>
        if c.name == "symbol" then
          { name := c.name, dtype := Dtype.enum symbolEnum, values := c.values }
        else c) }
  else lf

/-- Vertical `pl.concat` of frames sharing a schema: the head frame's
columns extended with the matching columns of the rest. -/
def vconcat (fs : List Frame) : Frame :=
  match fs with
  | [] => { cols := [] }
  | f :: rest =>
      { cols := f.cols.map (fun c =>
          { name := c.name, dtype := c.dtype,
            values := c.values ++ rest.flatMap (fun g =>
              ((g.cols.find? (fun c2 => c2.name == c.name)).elim []
                (fun c2 => c2.values))) }) }

/-- The read-only state a `ByDateDataview` uses to build user lazy-frames:
the universe symbol enum, the per-date scans
`pl.scan_parquet(path/date=d/**/glob)`, and the global scan
`pl.scan_parquet(path/date=*/**/glob)`.  Validation raises on invalid
partitions but does not alter the frames, so it is not modelled here. -/
structure Dataview where
  symbolEnum : List String
  scanDate : Int → Frame
  scanAll : Frame

/-- `__getitem__(dates)` with an explicit date list (`interface.py` lines
265-269): concatenate the per-date scans and post-process. -/
def getitemDates (v : Dataview) (dates : List Int) : Frame :=
  postprocessLf v.symbolEnum (vconcat (dates.map v.scanDate))

/-- `__getitem__(None)` (`interface.py` lines 262-264): the global scan is
returned directly, without `_postprocess_lf`. -/
def getitemAll (v : Dataview) : Frame :=
  v.scanAll

/-- `lazyframe()` (`interface.py` lines 271-282): the global scan,
post-processed. -/
def lazyframe (v : Dataview) : Frame :=
  postprocessLf v.symbolEnum v.scanAll

/-- The property claimed for user-facing frames: any `symbol` column
carries the frozen universe enum dtype. -/
def SymbolColsCast (cats : List String) (f : Frame) : Prop :=
  ∀ c ∈ f.cols, c.name = "symbol" → c.dtype = Dtype.enum cats

instance (cats : List String) (f : Frame) : Decidable (SymbolColsCast cats f) :=
  inferInstanceAs (Decidable (∀ c ∈ f.cols, _))

end Dataset

namespace Metadata

/-! ### `mnemosyne/engines/metadata.py`: `MetadataEngine` construction -/

/-- The dataset classes of the repository that can stand behind
`backend_dataset` (`interface.py`, `parquet.py`, `cached_universe.py`,
`binance/last_trade.py`, `binance/research.py`, `engines/metadata.py`). -/
inductive RepoDatasetClass where
  | byDateDataview
  | byDateDataset
  | parquetDataview
  | cachedUniverseDataset
  | binanceLastTradesGrid
  | binanceResearchDataset
  | metadataEngine
deriving Repr, DecidableEq

/-- The methods each class defines directly (its `def`s, from the source). -/
def ownMethods : RepoDatasetClass → List String
  | RepoDatasetClass.byDateDataview =>
      ["__post_init__", "_load_validation_cache", "_save_validation_cache",
       "_valid_partition", "_check_partitions_batch", "_get_self_kwargs",
       "_postprocess_lf", "universe", "update_validations", "valid_partition",
       "validate_partition", "invalid_partitions", "validate", "__getitem__",
       "lazyframe", "num_partitions", "num_validated", "clear_validation_cache"]
  | RepoDatasetClass.byDateDataset =>
      ["_compute_partitions", "_compute_partitions_batch", "compute"]
  | RepoDatasetClass.parquetDataview =>
      ["_get_self_kwargs", "_valid_partition"]
  | RepoDatasetClass.cachedUniverseDataset =>
      ["__post_init__", "_fetch_new_universe", "initialize_universe",
       "universe"]
  | RepoDatasetClass.binanceLastTradesGrid =>
      ["__post_init__", "_get_self_kwargs", "universe", "_compute_partitions"]
  | RepoDatasetClass.binanceResearchDataset =>
      ["__post_init__", "universe", "_get_self_kwargs", "_compute_partitions"]
  | RepoDatasetClass.metadataEngine =>
      ["__post_init__", "universe", "_get_self_kwargs", "append_metadata",
       "_compute_partitions"]

/-- Each class's method resolution order within the repository. -/
def mro : RepoDatasetClass → List RepoDatasetClass
  | RepoDatasetClass.byDateDataview => [RepoDatasetClass.byDateDataview]
  | RepoDatasetClass.byDateDataset =>
      [RepoDatasetClass.byDateDataset, RepoDatasetClass.byDateDataview]
  | RepoDatasetClass.parquetDataview =>
      [RepoDatasetClass.parquetDataview, RepoDatasetClass.byDateDataview]
  | RepoDatasetClass.cachedUniverseDataset =>
      [RepoDatasetClass.cachedUniverseDataset, RepoDatasetClass.byDateDataset,
       RepoDatasetClass.byDateDataview]
  | RepoDatasetClass.binanceLastTradesGrid =>
      [RepoDatasetClass.binanceLastTradesGrid, RepoDatasetClass.byDateDataset,
       RepoDatasetClass.byDateDataview]
  | RepoDatasetClass.binanceResearchDataset =>
      [RepoDatasetClass.binanceResearchDataset, RepoDatasetClass.byDateDataset,
       RepoDatasetClass.byDateDataview]
  | RepoDatasetClass.metadataEngine =>
      [RepoDatasetClass.metadataEngine, RepoDatasetClass.byDateDataset,
       RepoDatasetClass.byDateDataview]

/-- Every method name an instance of the class resolves. -/
def methodsOf (c : RepoDatasetClass) : List String :=
  (mro c).flatMap ownMethods

/-- The Python errors `MetadataEngine.__post_init__` can surface. -/
inductive PyErr where
  | runtimeError (msg : String)
  | attributeError (attr : String)
deriving Repr, DecidableEq

/-- Python attribute lookup on a `backend_dataset` instance: a name that no
class of the MRO defines raises `AttributeError`.  (The dataclass field
names of these classes do not include the looked-up name either.) -/
def getMethod (c : RepoDatasetClass) (name : String) : Except PyErr Unit :=
  if (methodsOf c).contains name then Except.ok ()
  else Except.error (PyErr.attributeError name)

/-- Whether a `__post_init__` run completed without raising. -/
def pyOk : Except PyErr Bool → Bool
  | Except.ok _ => true
  | Except.error _ => false

/-- `MetadataEngine.__post_init__` (`metadata.py` lines 91-119) as a step
sequence.  `lazyframeOk` abstracts whether `backend_dataset.lazyframe()`
succeeds at runtime; `returnsOk` abstracts the `ReturnsEngine.__init__`
schema check (`returns copy 2.py` lines 12-18).  The returned value is
`true` iff `super().__post_init__()` — which discovers partitions and
enables any later `compute` — was reached. -/
def metadataEnginePostInit (backend : RepoDatasetClass)
    (lazyframeOk returnsOk : Bool) : Except PyErr Bool := do
  -- line 92: self.backend_db = self.backend_dataset.lazyframe()
  getMethod backend "lazyframe"
  if !lazyframeOk then
    throw (PyErr.runtimeError "Failed to fetch lazyframe")
  -- lines 93-95: ReturnsEngine(self.backend_db, **kwargs) schema check
  if !returnsOk then
    throw (PyErr.runtimeError
      "Expected input to contain time and symbol(Enum) columns")
  -- lines 98-99: max lookbacks (pure computation on metadata_exprs)
  -- line 102: self.backend_dataset.cast_symbol_col_to_enum(...)
  getMethod backend "cast_symbol_col_to_enum"
  -- lines 105-117: returns_grid construction (pure)
  -- line 119: super().__post_init__()
  return true

end Metadata

/-! ## Theorems -/

namespace ReturnsEngine

theorem foldl_asofStep_eq_some_mem {l : List Tick} {acc : Option Tick}
    {t : Tick} (h : l.foldl asofStep acc = some t) : t ∈ l ∨ acc = some t := by
  induction l generalizing acc with
  | nil => exact Or.inr h
  | cons a l ih =>
    rcases @ih (asofStep acc a) h with hmem | hacc
    · exact Or.inl (List.mem_cons_of_mem _ hmem)
    · cases acc with
      | none =>
        simp only [asofStep] at hacc
        exact Or.inl (by rw [← Option.some.inj hacc]; exact List.mem_cons_self a l)
      | some b =>
        simp only [asofStep] at hacc
        by_cases hle : b.tick_time ≤ a.tick_time
        · rw [if_pos hle] at hacc
          exact Or.inl (by rw [← Option.some.inj hacc]; exact List.mem_cons_self a l)
        · rw [if_neg hle] at hacc
          exact Or.inr hacc

theorem foldl_asofStep_maximal {l : List Tick} {acc : Option Tick} {t : Tick}
    (h : l.foldl asofStep acc = some t) :
    (∀ u ∈ l, u.tick_time ≤ t.tick_time) ∧
      (∀ b, acc = some b → b.tick_time ≤ t.tick_time) := by
  induction l generalizing acc with
  | nil =>
    refine ⟨by simp, fun b hb => ?_⟩
    simp only [List.foldl_nil] at h
    rw [hb] at h
    rw [Option.some.inj h]
  | cons a l ih =>
    obtain ⟨hl, hacc⟩ := @ih (asofStep acc a) h
    constructor
    · intro u hu
      rcases List.mem_cons.mp hu with rfl | hu'
      · cases acc with
        | none => exact hacc u rfl
        | some b =>
          by_cases hle : b.tick_time ≤ u.tick_time
          · exact hacc u (by simp only [asofStep, if_pos hle])
          · have hb := hacc b (by simp only [asofStep, if_neg hle])
            exact le_trans (le_of_lt (lt_of_not_le hle)) hb
      · exact hl u hu'
    · intro b hb
      subst hb
      by_cases hle : b.tick_time ≤ a.tick_time
      · have ha := hacc a (by simp only [asofStep, if_pos hle])
        exact le_trans hle ha
      · exact hacc b (by simp only [asofStep, if_neg hle])

theorem foldl_asofStep_eq_none {l : List Tick} {acc : Option Tick}
    (h : l.foldl asofStep acc = none) : acc = none ∧ l = [] := by
  induction l generalizing acc with
  | nil => exact ⟨h, rfl⟩
  | cons a l ih =>
    obtain ⟨h1, _⟩ := @ih (asofStep acc a) h
    exfalso
    cases acc with
    | none => simp [asofStep] at h1
    | some b =>
      simp only [asofStep] at h1
      by_cases hle : b.tick_time ≤ a.tick_time
      · rw [if_pos hle] at h1; cases h1
      · rw [if_neg hle] at h1; cases h1

/-- `asofBackward` really is the backward asof join: the match is an
eligible tick and is the most recent one. -/
theorem asofBackward_spec {db : List Tick} {sym : String} {qt : Micros}
    {t : Tick} (h : asofBackward db sym qt = some t) :
    t ∈ db ∧ t.symbol = sym ∧ t.tick_time ≤ qt ∧
      ∀ u ∈ db, u.symbol = sym → u.tick_time ≤ qt →
        u.tick_time ≤ t.tick_time := by
  unfold asofBackward at h
  rcases foldl_asofStep_eq_some_mem h with hmem | hbad
  · have ht := List.mem_filter.mp hmem
    have hcond := ht.2
    simp only [Bool.and_eq_true, beq_iff_eq, decide_eq_true_eq] at hcond
    refine ⟨ht.1, hcond.1, hcond.2, fun u hu hsym hle => ?_⟩
    exact (foldl_asofStep_maximal h).1 u
      (List.mem_filter.mpr ⟨hu, by simp [hsym, hle]⟩)
  · cases hbad

/-- C1: for each query event, `ReturnsEngine.query` computes
`lag = query_time - tick_time` from the backward asof-matched tick — the
most recent tick of the event's symbol with `tick_time ≤ query_time` —
keeps the matched `fair` exactly when
`tick_time + tick_lag_tolerance ≥ query_time` (so a tick at exactly
`query_time` is accepted with lag 0 for any nonnegative tolerance), and
nulls `fair` whenever `tick_time + tick_lag_tolerance < query_time`, which
forces the row's `return` to be absent. -/
theorem query_staleness_policy (db : List Tick) (tol : Micros) (e : Event)
    (t : Tick) (h : asofBackward db e.symbol e.query_time = some t) :
    (t ∈ db ∧ t.symbol = e.symbol ∧ t.tick_time ≤ e.query_time ∧
      ∀ u ∈ db, u.symbol = e.symbol → u.tick_time ≤ e.query_time →
        u.tick_time ≤ t.tick_time) ∧
    (joinEvent db tol e).tick_to_query_lag
      = some (e.query_time - t.tick_time) ∧
    ((joinEvent db tol e).fair = some t.fair ↔
      t.tick_time + tol ≥ e.query_time) ∧
    (t.tick_time = e.query_time → 0 ≤ tol →
      (joinEvent db tol e).fair = some t.fair ∧
      (joinEvent db tol e).tick_to_query_lag = some 0) ∧
    (t.tick_time + tol < e.query_time →
      (joinEvent db tol e).fair = none ∧
      ∀ x : Option Rat, rowReturn none x = none ∧ rowReturn x none = none) := by
  refine ⟨asofBackward_spec h, ?_, ?_, ?_, ?_⟩
  · simp [joinEvent, h]
  · simp only [joinEvent, h]
    by_cases hc : t.tick_time + tol ≥ e.query_time
    · simp [hc]
    · simp [hc]
  · intro heq htol
    have hc : t.tick_time + tol ≥ e.query_time := by
      rw [heq]; exact le_add_of_nonneg_right htol
    constructor
    · simp [joinEvent, h, hc]
    · simp only [joinEvent, h]
      rw [heq, sub_self]
  · intro hstale
    have hc : ¬ (t.tick_time + tol ≥ e.query_time) := not_le.mpr hstale
    refine ⟨by simp [joinEvent, h, hc], fun x => ⟨?_, ?_⟩⟩
    · cases x <;> rfl
    · cases x <;> rfl

/-- Witness for C1 at a concrete backend and event: a single BTC tick five
microseconds before the query is matched with lag 5 and kept under a
tolerance of 30. -/
theorem query_staleness_policy_witness :
    (joinEvent [Tick.mk 0 "BTC" 10 100] 30
        (Event.mk 0 "BTC" 15 QueryType.qstart)).tick_to_query_lag = some 5 :=
  (query_staleness_policy [Tick.mk 0 "BTC" 10 100] 30
    (Event.mk 0 "BTC" 15 QueryType.qstart) (Tick.mk 0 "BTC" 10 100)
    (by decide)).2.1

theorem withRowIndexFrom_map_snd (l : List (QueryRow α)) (i : Nat) :
    (withRowIndexFrom i l).map Prod.snd = l := by
  induction l generalizing i with
  | nil => rfl
  | cons a as ih => simp [withRowIndexFrom, ih]

theorem withRowIndex_map_snd (l : List (QueryRow α)) :
    (withRowIndex l).map Prod.snd = l :=
  withRowIndexFrom_map_snd l 0

theorem length_withRowIndex (l : List (QueryRow α)) :
    (withRowIndex l).length = l.length := by
  have := congrArg List.length (withRowIndex_map_snd l)
  simpa using this

theorem mem_withRowIndexFrom {l : List (QueryRow α)} {i : Nat}
    {p : Nat × QueryRow α} (hp : p ∈ withRowIndexFrom i l) :
    ∃ j, ∃ hj : j < l.length, p.1 = i + j ∧ p.2 = l.get ⟨j, hj⟩ := by
  induction l generalizing i with
  | nil => cases hp
  | cons a as ih =>
    rcases List.mem_cons.mp hp with rfl | hp'
    · exact ⟨0, by simp, by simp, by simp⟩
    · obtain ⟨j, hj, h1, h2⟩ := ih hp'
      refine ⟨j + 1, by simpa using Nat.succ_lt_succ hj, by rw [h1]; omega, ?_⟩
      simpa using h2

theorem mem_withRowIndex {l : List (QueryRow α)} {p : Nat × QueryRow α}
    (hp : p ∈ withRowIndex l) :
    ∃ hj : p.1 < l.length, p.2 = l.get ⟨p.1, hj⟩ := by
  obtain ⟨j, hj, h1, h2⟩ := mem_withRowIndexFrom hp
  have hj1 : p.1 = j := by rw [h1]; omega
  subst hj1
  exact ⟨hj, h2⟩

theorem withRowIndexFrom_get (l : List (QueryRow α)) (i j : Nat)
    (hj : j < l.length) (hj2 : j < (withRowIndexFrom i l).length) :
    (withRowIndexFrom i l).get ⟨j, hj2⟩ = (i + j, l.get ⟨j, hj⟩) := by
  induction l generalizing i j with
  | nil => cases hj
  | cons a as ih =>
    cases j with
    | zero => simp [withRowIndexFrom]
    | succ j' =>
      have hj' : j' < as.length := by simpa using hj
      have hj2' : j' < (withRowIndexFrom (i + 1) as).length := by
        simpa [withRowIndexFrom] using hj2
      have := ih (i + 1) j' hj' hj2'
      simp only [withRowIndexFrom, List.get_cons_succ]
      rw [this]
      congr 1
      omega

theorem joinEvent_row_id (db : List Tick) (tol : Micros) (e : Event) :
    (joinEvent db tol e).row_id = e.row_id := by
  unfold joinEvent
  cases asofBackward db e.symbol e.query_time <;> rfl

theorem joinEvent_symbol (db : List Tick) (tol : Micros) (e : Event) :
    (joinEvent db tol e).symbol = e.symbol := by
  unfold joinEvent
  cases asofBackward db e.symbol e.query_time <;> rfl

/-- The `(row_id, symbol)` keys of the joined events are exactly the keys
of `query_with_both`, twice (once per event type). -/
theorem joined_keys_eq (qwb : List QueryBoth) (idb : List Tick)
    (tol : Micros) :
    ((longQuery qwb).map (joinEvent idb tol)).map
        (fun r => (r.row_id, r.symbol))
      = qwb.map (fun q => (q.row_id, q.symbol))
        ++ qwb.map (fun q => (q.row_id, q.symbol)) := by
  rw [List.map_map]
  have hfun : ((fun r : JoinedRow => (r.row_id, r.symbol)) ∘ joinEvent idb tol)
      = fun e => (e.row_id, e.symbol) := by
    funext e
    simp [Function.comp, joinEvent_row_id, joinEvent_symbol]
  rw [hfun]
  unfold longQuery
  rw [List.map_append, List.map_map, List.map_map]
  rfl

/-- Every `(row_id, symbol)` key of `query_with_both` is the row index and
symbol of a backend-compatible row of the indexed query. -/
theorem mem_queryWithBoth_key {dbSyms : List String} {dur : Micros}
    {q : List (QueryRow α)} {qb : QueryBoth}
    (h : qb ∈ queryWithBoth dbSyms dur (withRowIndex q)) :
    ∃ hj : qb.row_id < q.length,
      qb.symbol = (q.get ⟨qb.row_id, hj⟩).symbol ∧
      dbSyms.contains (q.get ⟨qb.row_id, hj⟩).symbol = true := by
  unfold queryWithBoth at h
  obtain ⟨p, hp, hpos⟩ := List.mem_map.mp h
  have hpf := List.mem_filter.mp hp
  obtain ⟨hj, hsnd⟩ := mem_withRowIndex hpf.1
  subst hpos
  refine ⟨hj, by rw [hsnd], ?_⟩
  rw [← hsnd]
  exact hpf.2


/-- A `Nodup` list whose elements are pairwise equal has at most one
element. -/
theorem nodup_all_eq_length_le_one {l : List β} (hnd : l.Nodup)
    (heq : ∀ a ∈ l, ∀ b ∈ l, a = b) : l.length ≤ 1 := by
  match l with
  | [] => simp
  | [a] => simp
  | a :: b :: t =>
    exfalso
    have hab : a = b := heq a (by simp) b (by simp)
    rw [List.nodup_cons] at hnd
    exact hnd.1 (hab ▸ List.mem_cons_self b t)

/-- Any element of `query`'s `append_cols` carries the row index of a
backend-compatible query row. -/
theorem mem_queryAppendCols {db : List Tick} {dbSyms : List String}
    {q : List (QueryRow α)} {dur tol : Micros} {r : Nat × AppendCols}
    (hr : r ∈ queryAppendCols db dbSyms q dur tol) :
    ∃ hj : r.1 < q.length,
      dbSyms.contains (q.get ⟨r.1, hj⟩).symbol = true := by
  unfold queryAppendCols appendColsOf at hr
  obtain ⟨k, hk, hkr⟩ := List.mem_map.mp hr
  have hk2 : k ∈ ((longQuery (queryWithBoth dbSyms dur (withRowIndex q))).map
      (joinEvent (inrangeDb db (queryWithBoth dbSyms dur (withRowIndex q))) tol)).map
      (fun r => (r.row_id, r.symbol)) := List.mem_dedup.mp hk
  rw [joined_keys_eq] at hk2
  have hk3 : k ∈ (queryWithBoth dbSyms dur (withRowIndex q)).map
      (fun q => (q.row_id, q.symbol)) := by
    rcases List.mem_append.mp hk2 with h | h <;> exact h
  obtain ⟨qb, hqb, hqbk⟩ := List.mem_map.mp hk3
  obtain ⟨hj, _, hcont⟩ := mem_queryWithBoth_key hqb
  have h1 : r.1 = qb.row_id := by rw [← hkr, ← hqbk]
  rw [h1]
  exact ⟨hj, hcont⟩

/-- `append_cols` keys are determined by the row index: the symbol of a key
is the symbol of the query row at that index. -/
theorem queryAppendCols_key_eq {db : List Tick} {dbSyms : List String}
    {q : List (QueryRow α)} {dur tol : Micros} {i : Nat} :
    ∀ k ∈ (((longQuery (queryWithBoth dbSyms dur (withRowIndex q))).map
        (joinEvent (inrangeDb db (queryWithBoth dbSyms dur (withRowIndex q))) tol)).map
        (fun r => (r.row_id, r.symbol))).dedup,
      k.1 = i → ∃ hj : i < q.length, k = (i, (q.get ⟨i, hj⟩).symbol) := by
  intro k hk hki
  have hk2 := List.mem_dedup.mp hk
  rw [joined_keys_eq] at hk2
  have hk3 : k ∈ (queryWithBoth dbSyms dur (withRowIndex q)).map
      (fun q => (q.row_id, q.symbol)) := by
    rcases List.mem_append.mp hk2 with h | h <;> exact h
  obtain ⟨qb, hqb, hqbk⟩ := List.mem_map.mp hk3
  obtain ⟨hj, hsym, _⟩ := mem_queryWithBoth_key hqb
  have h1 : qb.row_id = i := by rw [← hki, ← hqbk]
  subst h1
  refine ⟨hj, ?_⟩
  rw [← hqbk, hsym]

/-- The `append_cols` frame has at most one row per `row_id`: each group of
the `group_by(['row_id', 'symbol'])` has a distinct key, and a `row_id`
determines the symbol of its key. -/
theorem queryAppendCols_filter_length_le_one (db : List Tick)
    (dbSyms : List String) (q : List (QueryRow α)) (dur tol : Micros)
    (i : Nat) :
    ((queryAppendCols db dbSyms q dur tol).filter
      (fun r => r.1 == i)).length ≤ 1 := by
  unfold queryAppendCols appendColsOf
  rw [List.filter_map]
  rw [List.length_map]
  apply nodup_all_eq_length_le_one
  · exact (List.nodup_dedup _).filter _
  · intro a ha b hb
    have haf := List.mem_filter.mp ha
    have hbf := List.mem_filter.mp hb
    have hai : a.1 = i := by
      have := haf.2
      simpa using this
    have hbi : b.1 = i := by
      have := hbf.2
      simpa using this
    obtain ⟨hja, hka⟩ := queryAppendCols_key_eq a haf.1 hai
    obtain ⟨hjb, hkb⟩ := queryAppendCols_key_eq b hbf.1 hbi
    rw [hka, hkb]

/-- Under the at-most-one-match condition, the final left join is a map
over the indexed query: each input row is kept once, paired with its
(optional) match. -/
theorem leftJoinAppend_eq_map (qidx : List (Nat × QueryRow α))
    (ac : List (Nat × AppendCols))
    (hle : ∀ i, (ac.filter (fun r => r.1 == i)).length ≤ 1) :
    leftJoinAppend qidx ac =
      qidx.map (fun p =>
        (p.2, ((ac.filter (fun r => r.1 == p.1)).head?).map Prod.snd)) := by
  induction qidx with
  | nil => rfl
  | cons p rest ih =>
    unfold leftJoinAppend at *
    rw [List.flatMap_cons, ih, List.map_cons]
    cases hf : ac.filter (fun r => r.1 == p.1) with
    | nil => simp
    | cons x xs =>
      have hlen := hle p.1
      rw [hf] at hlen
      have hxs : xs = [] := by
        cases xs with
        | nil => rfl
        | cons y ys => simp at hlen
      subst hxs
      simp

/-- The output of `query` in map form: one output row per input row. -/
theorem query_eq_map (db : List Tick) (dbSyms : List String)
    (q : List (QueryRow α)) (dur tol : Micros) :
    query db dbSyms q dur tol =
      (withRowIndex q).map (fun p =>
        (p.2, (((queryAppendCols db dbSyms q dur tol).filter
          (fun r => r.1 == p.1)).head?).map Prod.snd)) := by
  unfold query
  exact leftJoinAppend_eq_map _ _
    (queryAppendCols_filter_length_le_one db dbSyms q dur tol)

/-- C10: `ReturnsEngine.query` yields exactly one output row per input row,
in input order, and leaves every original user column unchanged — mapping
the output through its first component recovers the input frame exactly,
and the output length equals the input length. -/
theorem query_preserves_rows (db : List Tick) (dbSyms : List String)
    (q : List (QueryRow α)) (dur tol : Micros) :
    ((query db dbSyms q dur tol).map Prod.fst = q) ∧
      (query db dbSyms q dur tol).length = q.length := by
  have h := query_eq_map db dbSyms q dur tol
  constructor
  · rw [h, List.map_map]
    have : (Prod.fst ∘ fun p : Nat × QueryRow α =>
        (p.2, (((queryAppendCols db dbSyms q dur tol).filter
          (fun r => r.1 == p.1)).head?).map Prod.snd))
        = Prod.snd := by
      funext p
      rfl
    rw [this]
    exact withRowIndex_map_snd q
  · rw [h, List.length_map, length_withRowIndex]

/-- C4: a query row whose symbol is outside the backend enum is dropped
before the asof join (no `query_with_both` row carries its index), yet
appears exactly once in the output — at its own position, via the final
left join on `row_id` — with every engine-added column null. -/
theorem query_unknown_symbol (db : List Tick) (dbSyms : List String)
    (q : List (QueryRow α)) (dur tol : Micros) (i : Nat) (h : i < q.length)
    (hsym : dbSyms.contains (q.get ⟨i, h⟩).symbol = false) :
    (∀ qb ∈ queryWithBoth dbSyms dur (withRowIndex q), qb.row_id ≠ i) ∧
    (query db dbSyms q dur tol).length = q.length ∧
    ∃ h2 : i < (query db dbSyms q dur tol).length,
      (query db dbSyms q dur tol).get ⟨i, h2⟩ = (q.get ⟨i, h⟩, none) := by
  have hdrop : ∀ qb ∈ queryWithBoth dbSyms dur (withRowIndex q),
      qb.row_id ≠ i := by
    intro qb hqb hqi
    obtain ⟨hj, _, hcont⟩ := mem_queryWithBoth_key hqb
    subst hqi
    exact Bool.noConfusion (hcont.symm.trans hsym)
  have hfilter : (queryAppendCols db dbSyms q dur tol).filter
      (fun r => r.1 == i) = [] := by
    rw [List.filter_eq_nil_iff]
    intro r hr hri
    obtain ⟨hj, hcont⟩ := mem_queryAppendCols hr
    have hri' : r.1 = i := by simpa using hri
    subst hri'
    exact Bool.noConfusion (hcont.symm.trans hsym)
  have hmap := query_eq_map db dbSyms q dur tol
  have hlen : (query db dbSyms q dur tol).length = q.length := by
    rw [hmap, List.length_map, length_withRowIndex]
  refine ⟨hdrop, hlen, ?_⟩
  refine ⟨by rw [hlen]; exact h, ?_⟩
  have hlen2 : i < (withRowIndex q).length := by
    rw [length_withRowIndex]; exact h
  have hget : (query db dbSyms q dur tol).get
      ⟨i, by rw [hlen]; exact h⟩
      = (fun p : Nat × QueryRow α =>
          (p.2, (((queryAppendCols db dbSyms q dur tol).filter
            (fun r => r.1 == p.1)).head?).map Prod.snd))
        ((withRowIndex q).get ⟨i, hlen2⟩) := by
    rw [List.get_of_eq hmap]
    exact List.get_map _
  have hw : (withRowIndex q).get ⟨i, hlen2⟩ = (i, q.get ⟨i, h⟩) := by
    show (withRowIndexFrom 0 q).get ⟨i, hlen2⟩ = (i, q.get ⟨i, h⟩)
    rw [withRowIndexFrom_get q 0 i h hlen2]
    rw [Nat.zero_add]
  rw [hget, hw]
  simp [hfilter]

/-- Witness for C4: querying `DOGE` against a `{BTC, ETH}` backend keeps
the row and appends nulls. -/
theorem query_unknown_symbol_witness :
    ∃ h2 : 0 < (query ([] : List Tick) ["BTC", "ETH"]
        [QueryRow.mk "DOGE" 0 ()] 600000000 30000000).length,
      (query ([] : List Tick) ["BTC", "ETH"]
        [QueryRow.mk "DOGE" 0 ()] 600000000 30000000).get ⟨0, h2⟩
        = (QueryRow.mk "DOGE" 0 (), none) :=
  (query_unknown_symbol ([] : List Tick) ["BTC", "ETH"]
    [QueryRow.mk "DOGE" 0 ()] 600000000 30000000 0 (by decide)
    (by decide)).2.2

/-- When every backend tick's partition date lies within the query-derived
bounds, the pushdown filter keeps the whole backend. -/
theorem pushdownDb_eq_of_inrange (db : List Tick) (q : List (QueryRow α))
    (dur : Micros)
    (hdates : db.all
      (fun t => boundsContain (queryDateBounds q dur) t.date) = true)
    (hq : q ≠ []) : pushdownDb true db q dur = db := by
  unfold pushdownDb
  rw [if_pos rfl]
  have hqmap : q.map (fun qq => dateOf qq.start_time) ≠ [] := by
    simpa using hq
  cases hb : queryDateBounds q dur with
  | mk lo? hi? =>
    cases lo? with
    | none =>
      exfalso
      have : (q.map (fun qq => dateOf qq.start_time)).min? = none := by
        have := congrArg Prod.fst hb
        simpa [queryDateBounds] using this
      exact hqmap (List.min?_eq_none_iff.mp this)
    | some lo =>
      cases hi? with
      | none =>
        exfalso
        have : (q.map (fun qq => dateOf (qq.start_time + dur))).max? = none := by
          have := congrArg Prod.snd hb
          simpa [queryDateBounds] using this
        have hqmap2 : q.map (fun qq => dateOf (qq.start_time + dur)) ≠ [] := by
          simpa using hq
        exact hqmap2 (List.max?_eq_none_iff.mp this)
      | some hi =>
        apply List.filter_eq_self.mpr
        intro t ht
        have hall := (List.all_eq_true.mp hdates) t ht
        rw [hb] at hall
        simpa [boundsContain] using hall

/-- C3 (amended): the date pushdown is result-preserving whenever every
backend tick's date lies within the query-derived
`[min(start date), max(end date)]` window; then `filter_by_query_dates`
does not change the returned frame. -/
theorem queryV2_date_pushdown_of_inrange (db : List Tick)
    (dbSyms : List String) (q : List (QueryRow α)) (dur tol : Micros)
    (hdates : db.all
      (fun t => boundsContain (queryDateBounds q dur) t.date) = true) :
    queryV2 true db dbSyms q dur tol = queryV2 false db dbSyms q dur tol := by
  cases hq : q with
  | nil => rfl
  | cons a as =>
    unfold queryV2
    rw [pushdownDb_eq_of_inrange db (a :: as) dur (hq ▸ hdates)
      (List.cons_ne_nil a as)]
    rfl

/-- Witness for the amended C3 at a concrete in-range instance. -/
theorem queryV2_date_pushdown_witness :
    queryV2 true [Tick.mk 1 "BTC" 86400000000 100] ["BTC"]
        [QueryRow.mk "BTC" microsPerDay ()] 0 30000000
      = queryV2 false [Tick.mk 1 "BTC" 86400000000 100] ["BTC"]
        [QueryRow.mk "BTC" microsPerDay ()] 0 30000000 :=
  queryV2_date_pushdown_of_inrange [Tick.mk 1 "BTC" 86400000000 100] ["BTC"]
    [QueryRow.mk "BTC" microsPerDay ()] 0 30000000 (by decide)

/-- Counterexample to C3 as stated: a `BTC` tick on the day before the
query (partition date 0, `tick_time` strictly before midnight of day 1) is
the backward asof match for a day-1 query and is within a generous
tolerance, but the pushdown restricts the backend to day 1 and drops it:
with the flag the row's return, lag and every diagnostic column are null,
without the flag they are populated. -/
theorem queryV2_date_pushdown_counterexample :
    queryV2 true [Tick.mk 0 "BTC" 0 100] ["BTC"]
        [QueryRow.mk "BTC" microsPerDay ()] 0 (2 * microsPerDay)
      ≠ queryV2 false [Tick.mk 0 "BTC" 0 100] ["BTC"]
        [QueryRow.mk "BTC" microsPerDay ()] 0 (2 * microsPerDay) := by
  decide

/-- C2 (code bug): `query_batch` never returns the documented wide frame —
the leftover `return mark_exprs, append_cols, query_lf_withidx` at
`returns copy 2.py` line 352 makes the wide pivot and the final join
unreachable.  On a concrete valid call (one mark `p1m` over a one-tick
`BTC` backend) the long-format 3-tuple is returned with its populated
`append_cols`, instead of the query frame widened with `return_p1m` etc. -/
theorem query_batch_early_return_bug :
    (∀ (α : Type) (db : List Tick) (dbSyms : List String)
        (q : List (QueryRow α)) (marks : List MarkSpec) (tol : Micros)
        (flag : Bool)
        (out : List ((Nat × QueryRow α) × List (String × AppendColsV2))),
      queryBatch db dbSyms q marks tol flag
        ≠ Except.ok (BatchOutput.wideFrame out)) ∧
    queryBatch [Tick.mk 0 "BTC" 36000000000 100]
        ["BTC"] [QueryRow.mk "BTC" 36000000000 ()]
        [MarkSpec.mk "p1m" (fun t => t) 60000000] 30000000 true
      = Except.ok (BatchOutput.debugTuple
          [MarkSpec.mk "p1m" (fun t => t) 60000000]
          [((0, "p1m"),
            { start_query_time := some 36000000000,
              end_query_time := some 36060000000,
              start_tick_time := some 36000000000,
              end_tick_time := some 36000000000,
              max_tick_to_query_lag := some 60000000,
              start_fair := some 100,
              end_fair := none,
              ret := none })]
          [(0, QueryRow.mk "BTC" 36000000000 ())]) := by
  constructor
  · intro α db dbSyms q marks tol flag out h
    unfold queryBatch at h
    by_cases hm : marks.isEmpty
    · rw [if_pos hm] at h
      cases h
    · rw [if_neg hm] at h
      simp at h
  · have hac : batchAppendCols [Tick.mk 0 "BTC" 36000000000 100]
        ["BTC"] [QueryRow.mk "BTC" 36000000000 ()]
        [MarkSpec.mk "p1m" (fun t => t) 60000000] 30000000 true
        = [((0, "p1m"),
            { start_query_time := some 36000000000,
              end_query_time := some 36060000000,
              start_tick_time := some 36000000000,
              end_tick_time := some 36000000000,
              max_tick_to_query_lag := some 60000000,
              start_fair := some 100,
              end_fair := none,
              ret := none })] := by decide
    unfold queryBatch
    rw [if_neg (by simp :
      ¬ ([MarkSpec.mk "p1m" (fun t => t) 60000000].isEmpty = true))]
    rw [hac]
    rfl

theorem query_batch_early_return_bug_witness :
    queryBatch ([] : List Tick) ["BTC"] ([] : List (QueryRow Unit))
        [MarkSpec.mk "p" (fun t => t) 0] 0 true
      ≠ Except.ok (BatchOutput.wideFrame []) :=
  query_batch_early_return_bug.1 Unit [] ["BTC"] []
    [MarkSpec.mk "p" (fun t => t) 0] 0 true []

end ReturnsEngine

namespace Dataset

theorem chunkListAux_flatten (n : Nat) (hn : 0 < n) :
    ∀ (fuel : Nat) (l : List α), l.length ≤ fuel →
      (chunkListAux n fuel l).flatten = l := by
  intro fuel
  induction fuel with
  | zero =>
    intro l hl
    cases l with
    | nil => rfl
    | cons a as => simp at hl
  | succ fuel ih =>
    intro l hl
    cases l with
    | nil => rfl
    | cons a as =>
      simp only [chunkListAux]
      rw [List.flatten_cons, ih ((a :: as).drop n) ?_, List.take_append_drop]
      rw [List.length_drop]
      simp only [List.length_cons] at hl ⊢
      omega

theorem chunkList_flatten (n : Nat) (hn : 0 < n) (l : List α) :
    (chunkList l n).flatten = l := by
  unfold chunkList
  rw [if_neg (by omega)]
  exact chunkListAux_flatten n hn l.length l le_rfl

theorem mem_chunkListAux_ne_nil {n : Nat} (hn : 0 < n) :
    ∀ {fuel : Nat} {l c : List α}, c ∈ chunkListAux n fuel l → c ≠ [] := by
  intro fuel
  induction fuel with
  | zero =>
    intro l c hc
    cases l <;> simp [chunkListAux] at hc
  | succ fuel ih =>
    intro l c hc
    cases l with
    | nil => simp [chunkListAux] at hc
    | cons a as =>
      simp only [chunkListAux] at hc
      rcases List.mem_cons.mp hc with rfl | hc2
      · intro htake
        rcases List.take_eq_nil_iff.mp htake with h0 | h0
        · omega
        · exact absurd h0 (List.cons_ne_nil a as)
      · exact ih hc2

theorem mem_chunkList_ne_nil {n : Nat} (hn : 0 < n) {l c : List α}
    (hc : c ∈ chunkList l n) : c ≠ [] := by
  unfold chunkList at hc
  rw [if_neg (by omega)] at hc
  exact mem_chunkListAux_ne_nil hn hc

theorem mem_computeResults {chunks : List (List Int)} {wf : List Int → Bool}
    {r : Int × Bool} :
    r ∈ computeResults chunks wf ↔
      ∃ c ∈ chunks, r.1 ∈ c ∧ r.2 = wf c := by
  unfold computeResults
  simp only [List.mem_flatMap, List.mem_map]
  constructor
  · rintro ⟨c, hc, d, hd, rfl⟩
    exact ⟨c, hc, hd, rfl⟩
  · rintro ⟨c, hc, hd, hr⟩
    exact ⟨c, hc, r.1, hd, by rw [← hr]⟩

theorem computeResults_map_fst (chunks : List (List Int))
    (wf : List Int → Bool) :
    (computeResults chunks wf).map Prod.fst = chunks.flatten := by
  induction chunks with
  | nil => rfl
  | cons c cs ih =>
    unfold computeResults at ih ⊢
    rw [List.flatMap_cons, List.map_append, List.flatten_cons, ih,
      List.map_map]
    congr 1
    exact List.map_id c

theorem mem_sortDates {l : List Int} {d : Int} :
    d ∈ sortDates l ↔ d ∈ l :=
  (List.perm_insertionSort _ l).mem_iff

theorem sortDates_nodup {l : List Int} (h : l.Nodup) :
    (sortDates l).Nodup :=
  ((List.perm_insertionSort _ l).nodup_iff).mpr h

theorem toComputeOf_nodup {partitions : List Int} {valid : Finset Int}
    {recompute : Bool} (h : partitions.Nodup) :
    (toComputeOf partitions valid recompute).Nodup := by
  unfold toComputeOf
  split
  · exact h
  · exact h.filter _

/-- With a positive batch size, the chunks of a `Nodup` date list are
pairwise disjoint. -/
theorem chunkList_disjoint {n : Nat} (hn : 0 < n) {l : List Int}
    (hnd : l.Nodup) {c c' : List Int}
    (hc : c ∈ chunkList l n) (hc' : c' ∈ chunkList l n) (hne : c ≠ c')
    {d : Int} (hd : d ∈ c) (hd' : d ∈ c') : False := by
  have hflat : (chunkList l n).flatten.Nodup := by
    rw [chunkList_flatten n hn l]
    exact hnd
  have hpw := (List.nodup_flatten.mp hflat).2
  have hdisj := hpw.forall (fun a b hab => hab.symm) hc hc' hne
  exact hdisj hd hd'

/-- C6: when at least one chunk of a `compute` run fails, the call raises
an error listing exactly the dates of the failed chunks, it persists the
validation cache, every date of every successful chunk is marked valid in
memory, and no date of a failed chunk is marked valid. -/
theorem compute_failure_semantics (partitions : List Int) (valid : Finset Int)
    (recompute : Bool) (n : Nat) (wf : List Int → Bool) (hn : 0 < n)
    (hnd : partitions.Nodup)
    (hfail : ∃ c ∈ chunkList
      (sortDates (toComputeOf partitions valid recompute)) n, wf c = false) :
    (∃ fl, (compute partitions valid recompute n wf).failedDates = some fl ∧
      ∀ d, d ∈ fl ↔ ∃ c ∈ chunkList
        (sortDates (toComputeOf partitions valid recompute)) n,
          wf c = false ∧ d ∈ c) ∧
    (compute partitions valid recompute n wf).saved = true ∧
    (∀ c ∈ chunkList (sortDates (toComputeOf partitions valid recompute)) n,
      wf c = true → ∀ d ∈ c,
        d ∈ (compute partitions valid recompute n wf).valid) ∧
    (∀ c ∈ chunkList (sortDates (toComputeOf partitions valid recompute)) n,
      wf c = false → ∀ d ∈ c,
        d ∉ (compute partitions valid recompute n wf).valid) := by
  set tc := toComputeOf partitions valid recompute with htc
  set chunks := chunkList (sortDates tc) n with hchunks
  obtain ⟨c0, hc0, hc0f⟩ := hfail
  have htcne : tc ≠ [] := by
    intro h0
    rw [h0] at hchunks
    have : chunks = [] := by
      rw [hchunks, chunkList, if_neg (by omega)]
      rfl
    rw [this] at hc0
    cases hc0
  have hempty : tc.isEmpty = false := by
    cases h : tc.isEmpty
    · rfl
    · exact absurd (List.isEmpty_iff.mp h) htcne
  have hred : compute partitions valid recompute n wf =
      { valid := (valid ∪ (((computeResults chunks wf).filter
              (fun r => r.2)).map Prod.fst).toFinset)
            \ ((((computeResults chunks wf).filter
              (fun r => !r.2)).map Prod.fst).toFinset),
        scheduled := true, saved := true,
        failedDates :=
          if (((computeResults chunks wf).filter
              (fun r => !r.2)).map Prod.fst).isEmpty then none
          else some (sortDates (((computeResults chunks wf).filter
              (fun r => !r.2)).map Prod.fst)) } := by
    rw [compute]
    rw [← htc, hempty]
    simp only [Bool.and_false, Bool.not_false, ← hchunks]
    rfl
  have hnodupflat : (sortDates tc).Nodup :=
    sortDates_nodup (toComputeOf_nodup hnd)
  have hmemF : ∀ d, d ∈ ((computeResults chunks wf).filter
      (fun r => !r.2)).map Prod.fst ↔
      ∃ c ∈ chunks, wf c = false ∧ d ∈ c := by
    intro d
    simp only [List.mem_map, List.mem_filter]
    constructor
    · rintro ⟨r, ⟨hr, hrf⟩, rfl⟩
      obtain ⟨c, hc, hdc, hrw⟩ := mem_computeResults.mp hr
      refine ⟨c, hc, ?_, hdc⟩
      rw [hrw] at hrf
      simpa using hrf
    · rintro ⟨c, hc, hcf, hdc⟩
      exact ⟨(d, false), ⟨mem_computeResults.mpr ⟨c, hc, hdc, hcf.symm⟩,
        rfl⟩, rfl⟩
  have hmemS : ∀ d, d ∈ ((computeResults chunks wf).filter
      (fun r => r.2)).map Prod.fst ↔
      ∃ c ∈ chunks, wf c = true ∧ d ∈ c := by
    intro d
    simp only [List.mem_map, List.mem_filter]
    constructor
    · rintro ⟨r, ⟨hr, hrf⟩, rfl⟩
      obtain ⟨c, hc, hdc, hrw⟩ := mem_computeResults.mp hr
      refine ⟨c, hc, ?_, hdc⟩
      rw [hrw] at hrf
      exact hrf
    · rintro ⟨c, hc, hcf, hdc⟩
      exact ⟨(d, true), ⟨mem_computeResults.mpr ⟨c, hc, hdc, hcf.symm⟩,
        rfl⟩, rfl⟩
  have hFne : ¬ (((computeResults chunks wf).filter
      (fun r => !r.2)).map Prod.fst).isEmpty = true := by
    rw [List.isEmpty_iff]
    intro h0
    obtain ⟨d0, hd0⟩ := List.exists_mem_of_ne_nil c0 (mem_chunkList_ne_nil hn hc0)
    have : d0 ∈ ((computeResults chunks wf).filter
        (fun r => !r.2)).map Prod.fst := (hmemF d0).mpr ⟨c0, hc0, hc0f, hd0⟩
    rw [h0] at this
    cases this
  refine ⟨⟨sortDates (((computeResults chunks wf).filter
      (fun r => !r.2)).map Prod.fst), ?_, ?_⟩, ?_, ?_, ?_⟩
  · rw [hred]
    simp only [if_neg hFne]
  · intro d
    rw [mem_sortDates, hmemF d]
  · rw [hred]
  · intro c hc hcw d hd
    rw [hred]
    simp only [Finset.mem_sdiff, Finset.mem_union, List.mem_toFinset]
    refine ⟨Or.inr ((hmemS d).mpr ⟨c, hc, hcw, hd⟩), ?_⟩
    intro hdF
    obtain ⟨c', hc', hc'f, hdc'⟩ := (hmemF d).mp hdF
    have hcc' : c ≠ c' := by
      intro hcc
      rw [← hcc] at hc'f
      rw [hcw] at hc'f
      cases hc'f
    exact chunkList_disjoint hn hnodupflat hc hc' hcc' hd hdc'
  · intro c hc hcw d hd
    rw [hred]
    simp only [Finset.mem_sdiff, Finset.mem_union, List.mem_toFinset]
    intro hmem
    exact hmem.2 ((hmemF d).mpr ⟨c, hc, hcw, hd⟩)

/-- `compute` with `recompute=False` and nothing to compute returns at once
(`interface.py` lines 386-388): no worker runs, no cache write. -/
theorem compute_eq_early {partitions : List Int} {valid : Finset Int}
    {n : Nat} {wf : List Int → Bool}
    (h : (toComputeOf partitions valid false).isEmpty = true) :
    compute partitions valid false n wf =
      { valid := valid, scheduled := false, saved := false,
        failedDates := none } := by
  rw [compute]
  simp only [h, Bool.not_false, Bool.and_true, if_pos]

/-- `compute` with a nonempty `to_compute` runs the batch and updates the
cache. -/
theorem compute_eq_run {partitions : List Int} {valid : Finset Int}
    {recompute : Bool} {n : Nat} {wf : List Int → Bool}
    (h : (toComputeOf partitions valid recompute).isEmpty = false) :
    compute partitions valid recompute n wf =
      { valid := (valid ∪ (((computeResults (chunkList
              (sortDates (toComputeOf partitions valid recompute)) n) wf).filter
              (fun r => r.2)).map Prod.fst).toFinset)
            \ ((((computeResults (chunkList
              (sortDates (toComputeOf partitions valid recompute)) n) wf).filter
              (fun r => !r.2)).map Prod.fst).toFinset),
        scheduled := true, saved := true,
        failedDates :=
          if (((computeResults (chunkList
              (sortDates (toComputeOf partitions valid recompute)) n) wf).filter
              (fun r => !r.2)).map Prod.fst).isEmpty then none
          else some (sortDates (((computeResults (chunkList
              (sortDates (toComputeOf partitions valid recompute)) n) wf).filter
              (fun r => !r.2)).map Prod.fst)) } := by
  rw [compute]
  simp only [h, Bool.and_false, Bool.not_false, if_neg]
  rfl

/-- `compute` with `recompute=True` over an empty partition list: the batch
helper returns at once, but the cache is still persisted. -/
theorem compute_eq_run_empty {partitions : List Int} {valid : Finset Int}
    {n : Nat} {wf : List Int → Bool}
    (h : (toComputeOf partitions valid true).isEmpty = true) :
    compute partitions valid true n wf =
      { valid := valid, scheduled := false, saved := true,
        failedDates := none } := by
  rw [compute]
  simp only [h, Bool.not_true, Bool.false_and, if_neg, if_pos]
  simp [h]

theorem mem_valid_or_toCompute {partitions : List Int} (valid : Finset Int)
    (recompute : Bool) {p : Int} (hp : p ∈ partitions) :
    p ∈ valid ∨ p ∈ toComputeOf partitions valid recompute := by
  unfold toComputeOf
  split
  · exact Or.inr hp
  · by_cases hv : p ∈ valid
    · exact Or.inl hv
    · exact Or.inr (List.mem_filter.mpr ⟨hp, by simp [hv]⟩)

/-- C8: after an error-free `compute` every partition is in
`valid_partitions`, and a second `compute(recompute=False)` finds nothing
to compute: it schedules no worker, writes nothing, raises nothing, and
leaves the valid set unchanged, whatever its workers would have done. -/
theorem compute_then_compute_noop (partitions : List Int) (valid : Finset Int)
    (recompute : Bool) (n : Nat) (wf wf2 : List Int → Bool) (hn : 0 < n)
    (hok : (compute partitions valid recompute n wf).failedDates = none) :
    (∀ p ∈ partitions, p ∈ (compute partitions valid recompute n wf).valid) ∧
    compute partitions (compute partitions valid recompute n wf).valid
        false n wf2
      = { valid := (compute partitions valid recompute n wf).valid,
          scheduled := false, saved := false, failedDates := none } := by
  have hmain : ∀ p ∈ partitions,
      p ∈ (compute partitions valid recompute n wf).valid := by
    cases hempty : (toComputeOf partitions valid recompute).isEmpty with
    | true =>
      cases recompute with
      | false =>
        rw [compute_eq_early hempty]
        intro p hp
        have h0 : toComputeOf partitions valid false = [] :=
          List.isEmpty_iff.mp hempty
        have h1 : partitions.filter (fun d => !(decide (d ∈ valid))) = [] := h0
        rw [List.filter_eq_nil_iff] at h1
        have := h1 p hp
        simpa using this
      | true =>
        rw [compute_eq_run_empty hempty]
        intro p hp
        have h0 : toComputeOf partitions valid true = [] :=
          List.isEmpty_iff.mp hempty
        have h1 : partitions = [] := h0
        rw [h1] at hp
        cases hp
    | false =>
      rw [compute_eq_run hempty] at hok ⊢
      intro p hp
      set tc := toComputeOf partitions valid recompute with htc
      set chunks := chunkList (sortDates tc) n with hchunks
      set results := computeResults chunks wf with hresults
      have hFnil : (results.filter (fun r => !r.2)).map Prod.fst = [] := by
        by_cases hF : ((results.filter (fun r => !r.2)).map Prod.fst).isEmpty
        · exact List.isEmpty_iff.mp hF
        · rw [if_neg hF] at hok
          cases hok
      have hfilnil : results.filter (fun r => !r.2) = [] :=
        List.map_eq_nil_iff.mp hFnil
      have halltrue : ∀ r ∈ results, r.2 = true := by
        intro r hr
        rw [List.filter_eq_nil_iff] at hfilnil
        have := hfilnil r hr
        simpa using this
      have hS : results.filter (fun r => r.2) = results :=
        List.filter_eq_self.mpr (fun r hr => halltrue r hr)
      have hSfst : (results.filter (fun r => r.2)).map Prod.fst
          = sortDates tc := by
        rw [hS, hresults, computeResults_map_fst, hchunks,
          chunkList_flatten n hn]
      simp only [Finset.mem_sdiff, Finset.mem_union, List.mem_toFinset,
        hFnil, hSfst]
      constructor
      · rcases mem_valid_or_toCompute valid recompute hp with hv | htcm
        · exact Or.inl hv
        · exact Or.inr (mem_sortDates.mpr htcm)
      · simp
  refine ⟨hmain, ?_⟩
  apply compute_eq_early
  rw [List.isEmpty_iff]
  have : toComputeOf partitions
      (compute partitions valid recompute n wf).valid false
      = partitions.filter (fun d =>
          !(decide (d ∈ (compute partitions valid recompute n wf).valid))) :=
    rfl
  rw [this, List.filter_eq_nil_iff]
  intro p hp
  simp [hmain p hp]

/-- Witness for C6 at a concrete run: two one-day chunks, the `[1]` chunk
fails, and the cache is persisted before the error is raised. -/
theorem compute_failure_semantics_witness :
    (compute [0, 1] ∅ false 1 (fun c => c.contains 0)).saved = true :=
  (compute_failure_semantics [0, 1] ∅ false 1 (fun c => c.contains 0)
    (by decide) (by decide) (by decide)).2.1

/-- Witness for C8 at a concrete run: after an error-free compute over
`{0, 1}`, a second `compute(recompute=False)` is a no-op even with failing
workers. -/
theorem compute_then_compute_noop_witness :
    compute [0, 1] (compute [0, 1] ∅ false 1 (fun _ => true)).valid false 1
        (fun _ => false)
      = { valid := (compute [0, 1] ∅ false 1 (fun _ => true)).valid,
          scheduled := false, saved := false, failedDates := none } :=
  (compute_then_compute_noop [0, 1] ∅ false 1 (fun _ => true) (fun _ => false)
    (by decide) (by decide)).2

end Dataset

namespace Dataset

theorem symbolColsCast_postprocessLf (cats : List String) (f : Frame) :
    SymbolColsCast cats (postprocessLf cats f) := by
  unfold postprocessLf SymbolColsCast
  split
  · intro c hc hname
    obtain ⟨c0, hc0, rfl⟩ := List.mem_map.mp hc
    by_cases h0 : c0.name == "symbol"
    · simp only [if_pos h0]
    · rw [if_neg h0] at hname ⊢
      exact absurd (by simp [hname]) h0
  · next hany =>
    intro c hc hname
    exact absurd (List.any_eq_true.mpr ⟨c, hc, by simp [hname]⟩) hany

theorem postprocessLf_name_preserved (cats : List String) (c : Column) :
    (if c.name == "symbol" then
        { name := c.name, dtype := Dtype.enum cats, values := c.values }
      else c).name = c.name := by
  by_cases h : c.name == "symbol" <;> simp [h]

theorem postprocessLf_idem (cats : List String) (f : Frame) :
    postprocessLf cats (postprocessLf cats f) = postprocessLf cats f := by
  by_cases hany : f.cols.any (fun c => c.name == "symbol")
  · have houter : (postprocessLf cats f).cols.any
        (fun c => c.name == "symbol") = true := by
      unfold postprocessLf
      rw [if_pos hany]
      obtain ⟨c, hc, hcn⟩ := List.any_eq_true.mp hany
      have hcname : c.name = "symbol" := by simpa using hcn
      refine List.any_eq_true.mpr ⟨_, List.mem_map_of_mem _ hc, ?_⟩
      simp [hcname]
    unfold postprocessLf
    rw [if_pos hany]
    rw [if_pos (by
      have := houter
      unfold postprocessLf at this
      rw [if_pos hany] at this
      exact this)]
    congr 1
    rw [List.map_map]
    apply List.map_congr_left
    intro c _
    by_cases h : c.name == "symbol"
    · simp [Function.comp, h]
    · simp [Function.comp, h]
  · unfold postprocessLf
    rw [if_neg hany, if_neg hany]

/-- C7 (amended): `__getitem__` with an explicit date list and
`lazyframe()` both return frames whose `symbol` column (when present)
carries the frozen universe enum, and the post-processing is idempotent.
(`__getitem__` with no dates bypasses the cast; see the counterexample.) -/
theorem user_frames_symbol_cast (v : Dataview) (dates : List Int)
    (f : Frame) :
    SymbolColsCast v.symbolEnum (getitemDates v dates) ∧
    SymbolColsCast v.symbolEnum (lazyframe v) ∧
    postprocessLf v.symbolEnum (postprocessLf v.symbolEnum f)
      = postprocessLf v.symbolEnum f :=
  ⟨symbolColsCast_postprocessLf _ _, symbolColsCast_postprocessLf _ _,
    postprocessLf_idem _ _⟩

/-- Counterexample to C7 as stated: `__getitem__` with no dates
(`interface.py` lines 262-264) returns the raw `pl.scan_parquet` without
`_postprocess_lf`, so a string-typed `symbol` column reaches the user
uncast. -/
theorem getitem_all_no_cast_counterexample :
    ¬ SymbolColsCast ["A"]
      (getitemAll
        { symbolEnum := ["A"],
          scanDate := fun _ =>
            { cols := [{ name := "symbol", dtype := Dtype.str,
                         values := ["A"] }] },
          scanAll :=
            { cols := [{ name := "symbol", dtype := Dtype.str,
                         values := ["A"] }] } }) := by
  intro h
  have := h { name := "symbol", dtype := Dtype.str, values := ["A"] }
    (by simp [getitemAll]) rfl
  cases this

end Dataset

namespace Metadata

/-- C9: `cast_symbol_col_to_enum` is defined by no dataset class of the
repository, so `MetadataEngine.__post_init__` never completes: whatever
the runtime fate of the earlier steps, construction fails — and when they
succeed it fails precisely with `AttributeError` at the
`cast_symbol_col_to_enum` call, before `super().__post_init__()` can set
up partitions for any computation. -/
theorem metadata_engine_always_fails :
    ∀ b : RepoDatasetClass,
      ("cast_symbol_col_to_enum" ∈ methodsOf b → False) ∧
      (∀ lOk rOk : Bool, pyOk (metadataEnginePostInit b lOk rOk) = false) ∧
      metadataEnginePostInit b true true
        = Except.error (PyErr.attributeError "cast_symbol_col_to_enum") := by
  intro b
  refine ⟨?_, ?_, ?_⟩
  · cases b <;> decide
  · intro lOk rOk
    cases b <;> cases lOk <;> cases rOk <;> decide
  · cases b <;> rfl

end Metadata

namespace Grid

/-- C5: grid aggregation assigns a tick at time `t` to bucket
`truncate(t, Δ) + Δ`, so a tick in `[b, b+Δ)` lands in bucket `b+Δ`; on
the four Scenario-1 ticks with `Δ = 10m` the 09:10 bucket has
`open=100, high=101, low=99, close=99, volume=6, trade_count=3,
taker_buy_volume=4, taker_sell_volume=2, last_event_time=09:09:59`, and
the tick at exactly 09:10:00 falls in the 09:20 bucket. -/
theorem grid_bucket_end_scenario1 (t b D : Int) (hD : 0 < D) (hdvd : D ∣ b)
    (h1 : b ≤ t) (h2 : t < b + D) :
    bucketEnd t D = b + D ∧
    gridQuery scenario1 tenMin =
      [ { symbol := "A", date := 0, time := 33000000000, peg_symbol := "USDT",
          open_ := 100, high := 101, low := 99, close := 99, volume := 6,
          trade_count := 3, last_event_time := 32999000000,
          taker_buy_volume := 4, taker_sell_volume := 2,
          vwap_taker_buy := some (397 / 4), vwap_taker_sell := some 101,
          vwap_price := some (599 / 6) },
        { symbol := "A", date := 0, time := 33600000000, peg_symbol := "USDT",
          open_ := 102, high := 102, low := 102, close := 102, volume := 1,
          trade_count := 1, last_event_time := 33000000000,
          taker_buy_volume := 0, taker_sell_volume := 1,
          vwap_taker_buy := none, vwap_taker_sell := some 102,
          vwap_price := some 102 } ] := by
  constructor
  · obtain ⟨k, rfl⟩ := hdvd
    unfold bucketEnd truncate
    have hfd : t.fdiv D = k := by
      rw [Int.fdiv_eq_ediv _ (le_of_lt hD)]
      have ht : t = (t - D * k) + D * k := by ring
      rw [ht, Int.add_mul_ediv_left _ _ (ne_of_gt hD)]
      rw [Int.ediv_eq_zero_of_lt (by linarith) (by linarith)]
      ring
    rw [hfd]
  · have hdecomp : gridQuery scenario1 tenMin =
        [ gridAgg
            [ { symbol := "A", date := 0, time := 32401000000, price := 100,
                quantity := 1, is_buyer_maker := false, peg_symbol := "USDT" },
              { symbol := "A", date := 0, time := 32730000000, price := 101,
                quantity := 2, is_buyer_maker := true, peg_symbol := "USDT" },
              { symbol := "A", date := 0, time := 32999000000, price := 99,
                quantity := 3, is_buyer_maker := false, peg_symbol := "USDT" } ]
            { symbol := "A", date := 0, time_grid := 33000000000 },
          gridAgg
            [ { symbol := "A", date := 0, time := 33000000000, price := 102,
                quantity := 1, is_buyer_maker := true, peg_symbol := "USDT" } ]
            { symbol := "A", date := 0, time_grid := 33600000000 } ] := rfl
    rw [hdecomp]
    norm_num [gridAgg, GridRow.mk.injEq, weightedMean, takerBuyQty,
      takerSellQty, max_def, min_def, List.max?, List.min?]

/-- Witness for C5 at `Δ = 10m`, `b = 09:00`, `t = 09:05`: the bucket is
09:10. -/
theorem grid_bucket_end_scenario1_witness :
    bucketEnd 32700000000 600000000 = 32400000000 + 600000000 :=
  (grid_bucket_end_scenario1 32700000000 32400000000 600000000 (by decide)
    (by decide) (by decide) (by decide)).1

end Grid
